import Mathlib

/-!
# Verification of the helm repository catalog engine (open-hand/helm)

Shallow embedding of the chart-repository index code:
`pkg/repo` (responses.go: `FindChartInRepoURL`, `FindChartInAuthRepoURL`,
`ResolveReferenceURL`, `GetAndCacheIndexFile`, `ChartRepository.Load`,
`DownloadIndexFile`, `generateIndex`, the `IndexFileCache` TTL cache) and the
`index` entry point of `cmd/helm/repo_index.go`.

Components of the repository that are referenced by this code but whose
sources are not part of the sample (`IndexFile.Get/Add/Has/Merge/SortEntries`
from pkg/repo/index.go, and the patrickmn/go-cache TTL store) are modelled
from the specification; each such definition carries a doc comment starting
with `Modelled from the spec:`.

Machine integers do not occur on the verified paths; times are modelled as
`Nat` seconds.
-/


/-! ## Kernel-computable string helpers

Go's string primitives (`strings.Split`, `strings.HasPrefix`,
`strings.ToLower`, ...) are embedded over `List Char` with structural
recursion, so that every definition evaluates on concrete inputs. -/

/-- Drop `sep` as a prefix of `l`, `none` when it is not a prefix. -/
def takeAfterPrefix (sep : List Char) (l : List Char) : Option (List Char) :=
  match sep, l with
  | [], rest => some rest
  | _ :: _, [] => none
  | s :: ss, c :: cs => if c = s then takeAfterPrefix ss cs else none

/-- Fuel-driven splitter: cut at every occurrence of the separator. The fuel
is an upper bound on the scanned length, structurally consumed. -/
def splitOnCharsFuel (sep : List Char) : Nat → List Char → List Char → List (List Char)
  | 0, l, acc => [acc.reverse ++ l]
  | fuel + 1, l, acc =>
    match l with
    | [] => [acc.reverse]
    | c :: cs =>
      match takeAfterPrefix sep l with
      | some rest => acc.reverse :: splitOnCharsFuel sep fuel rest []
      | none => splitOnCharsFuel sep fuel cs (c :: acc)

/-- `strings.Split` / Lean `String.splitOn`: an empty separator keeps the
string whole (as `String.splitOn`; no call site passes one). -/
def goSplitOn (s sep : String) : List String :=
  if sep = "" then [s]
  else (splitOnCharsFuel sep.data (s.data.length + 1) s.data []).map String.mk

/-- `strings.HasPrefix`. -/
def goStartsWith (s pre : String) : Bool :=
  pre.data.isPrefixOf s.data

/-- `strings.HasSuffix`. -/
def goEndsWith (s suf : String) : Bool :=
  suf.data.reverse.isPrefixOf s.data.reverse

/-- Drop the first `n` characters. -/
def goDrop (s : String) (n : Nat) : String :=
  String.mk (s.data.drop n)

/-- Keep the first `n` characters. -/
def goTake (s : String) (n : Nat) : String :=
  String.mk (s.data.take n)

/-- Drop the last `n` characters. -/
def goDropRight (s : String) (n : Nat) : String :=
  String.mk (s.data.take (s.data.length - n))

/-- ASCII lower-casing of one character. -/
def charLower (c : Char) : Char :=
  if c.isUpper then Char.ofNat (c.toNat + 32) else c

/-- `strings.ToLower` (ASCII). -/
def goToLower (s : String) : String :=
  String.mk (s.data.map charLower)

/-- Decimal parse of a digit-only, non-empty string. -/
def goToNat (s : String) : Option Nat :=
  if s.data ≠ [] ∧ s.data.all Char.isDigit then
    some (s.data.foldl (fun n c => n * 10 + (c.toNat - 48)) 0)
  else none

/-- Lexicographic character-list comparison by code point. -/
def cmpChars : List Char → List Char → Ordering
  | [], [] => .eq
  | [], _ :: _ => .lt
  | _ :: _, [] => .gt
  | a :: as, b :: bs =>
    if a.toNat < b.toNat then .lt
    else if b.toNat < a.toNat then .gt
    else cmpChars as bs

/-- Lexicographic string comparison. -/
def goCompareStr (a b : String) : Ordering :=
  cmpChars a.data b.data

/-! ## Semantic versions (modelled from the spec)

The spec (§4.1) prescribes ordering by "descending semantic-version
precedence (major, then minor, then patch, then pre-release precedence per
standard semantic-versioning comparison rules)". -/

/-- A parsed semantic version: numeric triple plus pre-release identifiers
(the identifiers of the dot-separated pre-release tag). Build metadata is
ignored, per semver precedence rules. -/
structure Semver where
  major : Nat
  minor : Nat
  patch : Nat
  pre : List String
deriving DecidableEq, Repr

/-- Modelled from the spec: parse a version string in "semantic-version
syntax" (§3, VersionRecord). An optional leading `v` is tolerated; build
metadata after `+` is dropped; the pre-release tag after the first `-` is
split on `.` into identifiers. Strings that are not `MAJOR.MINOR.PATCH`
with numeric components fail to parse. -/
def parseSemver (s : String) : Option Semver :=
  let s := if goStartsWith s "v" then goDrop s 1 else s
  let s := (goSplitOn s "+").headD s
  let parts := goSplitOn s "-"
  let core := parts.headD s
  let preTag := String.intercalate "-" parts.tail
  let preIds := if preTag = "" then [] else goSplitOn preTag "."
  match goSplitOn core "." with
  | [a, b, c] =>
    match goToNat a, goToNat b, goToNat c with
    | some ma, some mi, some pa => some ⟨ma, mi, pa, preIds⟩
    | _, _, _ => none
  | _ => none

/-- Compare two pre-release identifiers: numeric identifiers compare
numerically and rank below alphanumeric ones; alphanumeric identifiers
compare lexically (standard semver rule 11). -/
def cmpIdent (a b : String) : Ordering :=
  match goToNat a, goToNat b with
  | some x, some y => compare x y
  | some _, none => .lt
  | none, some _ => .gt
  | none, none => goCompareStr a b

/-- Compare pre-release identifier lists; a shorter list that is a prefix of
the other ranks lower. -/
def cmpPre : List String → List String → Ordering
  | [], [] => .eq
  | [], _ :: _ => .lt
  | _ :: _, [] => .gt
  | a :: as, b :: bs =>
    match cmpIdent a b with
    | .eq => cmpPre as bs
    | o => o

/-- Semantic-version precedence: major, minor, patch, then pre-release
(a release ranks above any pre-release of the same triple). -/
def semverCompare (a b : Semver) : Ordering :=
  (compare a.major b.major).then <|
    (compare a.minor b.minor).then <|
      (compare a.patch b.patch).then <|
        match a.pre, b.pre with
        | [], [] => .eq
        | [], _ :: _ => .gt
        | _ :: _, [] => .lt
        | x@(_ :: _), y@(_ :: _) => cmpPre x y

/-! ## The catalog data model -/

/-- One publishable unit of the index: package name, version string, content
digest, download URLs and creation timestamp (`ChartVersion` in pkg/repo). -/
structure ChartVersion where
  name : String
  version : String
  digest : String
  urls : List String
  created : Nat
deriving DecidableEq, Repr

/-- The repository index (`IndexFile` in pkg/repo): format tag, generation
instant, and per-package ordered version records. The Go `map[string][]*ChartVersion`
is embedded as an association list; lookup takes the first matching key. -/
structure IndexFile where
  apiVersion : String
  generated : Nat
  entries : List (String × List ChartVersion)
deriving DecidableEq, Repr

/-- Modelled from the spec: `NewIndexFile` (pkg/repo/index.go is not under
src/) builds an empty catalog with the current schema tag and a generation
timestamp of "now" (§4.1 `New`). -/
def NewIndexFile (now : Nat) : IndexFile :=
  ⟨"v1", now, []⟩

/-- First entry with the given package name, as Go map indexing. -/
def lookupPkg (es : List (String × List ChartVersion)) (n : String) :
    Option (List ChartVersion) :=
  match es with
  | [] => none
  | p :: rest => if p.1 == n then some p.2 else lookupPkg rest n

/-- Append records to the (first) entry of package `n`, creating the entry at
the end when the package is absent. -/
def setPkgAppend (es : List (String × List ChartVersion)) (n : String)
    (extra : List ChartVersion) : List (String × List ChartVersion) :=
  match es with
  | [] => [(n, extra)]
  | p :: rest =>
    if p.1 == n then (p.1, p.2 ++ extra) :: rest
    else p :: setPkgAppend rest n extra

/-- Modelled from the spec: `IndexFile.Has` (pkg/repo/index.go not under
src/) is an "exact string match on package name and version" (§4.1). -/
def IndexFile.has (i : IndexFile) (n v : String) : Bool :=
  match lookupPkg i.entries n with
  | some vs => vs.any (fun cv => cv.version == v)
  | none => false

/-- Modelled from the spec: `IndexFile.Add` (pkg/repo/index.go not under
src/) is a no-op when a record with the same package name and exact version
already exists, and otherwise appends to that package's sequence (§4.1). -/
def IndexFile.add (i : IndexFile) (cv : ChartVersion) : IndexFile :=
  if i.has cv.name cv.version then i
  else { i with entries := setPkgAppend i.entries cv.name [cv] }

/-- Modelled from the spec: `IndexFile.Merge` (pkg/repo/index.go not under
src/): packages present only in `other` are copied whole; for packages
present in both, only version strings absent from the receiver are appended —
receiver entries are never overwritten (§4.1). -/
def IndexFile.merge (i other : IndexFile) : IndexFile :=
  other.entries.foldl
    (fun acc p =>
      match lookupPkg acc.entries p.1 with
      | none => { acc with entries := setPkgAppend acc.entries p.1 p.2 }
      | some ws =>
        { acc with
          entries := setPkgAppend acc.entries p.1
            (p.2.filter (fun cv => !ws.any (fun w => w.version == cv.version))) })
    i

/-- `a` may precede `b` in the descending order of `SortEntries`: parseable
versions in descending semver precedence, unparseable versions after all
valid ones (§4.1). -/
def beforeDesc (a b : ChartVersion) : Bool :=
  match parseSemver a.version, parseSemver b.version with
  | some x, some y => semverCompare x y ≠ .lt
  | some _, none => true
  | none, some _ => false
  | none, none => true

/-- Stable insertion into a sorted list: `x` goes after every element it may
follow. -/
def insertBy (le : α → α → Bool) (x : α) : List α → List α
  | [] => [x]
  | y :: ys => if le x y then x :: y :: ys else y :: insertBy le x ys

/-- Insertion sort by the given "may precede" relation. -/
def sortByRel (le : α → α → Bool) (l : List α) : List α :=
  l.foldr (insertBy le) []

/-- Modelled from the spec: `IndexFile.SortEntries` (pkg/repo/index.go not
under src/) sorts every package's sequence in descending semantic-version
precedence, unparseable versions last (§4.1). -/
def IndexFile.sortEntries (i : IndexFile) : IndexFile :=
  { i with entries := i.entries.map (fun p => (p.1, sortByRel beforeDesc p.2)) }

/-! ### Constrained lookup (`IndexFile.Get`) -/

/-- A version-range operator of the constraint language. -/
inductive RangeOp where
  | eqv | ne | gt | lt | ge | le | caret | tilde
deriving DecidableEq, Repr

/-- Modelled from the spec: the constraint syntax of `Get` (§4.1) — an
operator (`>=`, `<=`, `!=`, `>`, `<`, `=`, `^`, `~`) followed by a version,
a bare version meaning exact equality of the parsed versions. -/
def parseRange (c : String) : Option (RangeOp × Semver) :=
  let tryOp : String → Option (RangeOp × String) := fun s =>
    if goStartsWith s ">=" then some (.ge, goDrop s 2)
    else if goStartsWith s "<=" then some (.le, goDrop s 2)
    else if goStartsWith s "!=" then some (.ne, goDrop s 2)
    else if goStartsWith s ">" then some (.gt, goDrop s 1)
    else if goStartsWith s "<" then some (.lt, goDrop s 1)
    else if goStartsWith s "=" then some (.eqv, goDrop s 1)
    else if goStartsWith s "^" then some (.caret, goDrop s 1)
    else if goStartsWith s "~" then some (.tilde, goDrop s 1)
    else some (.eqv, s)
  match tryOp c with
  | some (op, rest) => (parseSemver rest).map (fun v => (op, v))
  | none => none

/-- Does the parsed version `sv` satisfy operator `op` against target `v`?
`^` keeps the major component, `~` the major and minor components. -/
def rangeMatches (op : RangeOp) (v sv : Semver) : Bool :=
  match op with
  | .eqv => semverCompare sv v = .eq
  | .ne => semverCompare sv v ≠ .eq
  | .gt => semverCompare sv v = .gt
  | .lt => semverCompare sv v = .lt
  | .ge => semverCompare sv v ≠ .lt
  | .le => semverCompare sv v ≠ .gt
  | .caret => sv.major = v.major ∧ semverCompare sv v ≠ .lt
  | .tilde => sv.major = v.major ∧ sv.minor = v.minor ∧ semverCompare sv v ≠ .lt

/-- A version string satisfies the range when it parses and matches. -/
def versionMatchesRange (r : RangeOp × Semver) (v : String) : Bool :=
  match parseSemver v with
  | none => false
  | some sv => rangeMatches r.1 r.2 sv

/-- The highest-precedence record of a list (all of whose versions parse). -/
def pickHighest (vs : List ChartVersion) : Option ChartVersion :=
  vs.foldl
    (fun best cv =>
      match best with
      | none => some cv
      | some b =>
        match parseSemver cv.version, parseSemver b.version with
        | some x, some y => if semverCompare x y = .gt then some cv else some b
        | _, _ => some b)
    none

/-- Modelled from the spec: `IndexFile.Get` (pkg/repo/index.go not under
src/), §4.1: an absent package is a NotFoundError; an empty constraint
selects the first record of the package's sequence whose version parses
(the "latest" under the current ordering; pre-releases are not excluded,
the deterministic policy this model fixes for §9's open question); a
non-empty constraint tries an exact version-string match first and
otherwise selects the highest-precedence record satisfying the range.
All failures are `Except.error` with a message (NotFoundError). -/
def IndexFile.get (i : IndexFile) (name constraint : String) :
    Except String ChartVersion :=
  match lookupPkg i.entries name with
  | none => .error s!"no chart name found: {name}"
  | some vs =>
    if constraint = "" then
      match vs.find? (fun cv => (parseSemver cv.version).isSome) with
      | some cv => .ok cv
      | none => .error s!"no chart version found for {name}"
    else
      match vs.find? (fun cv => cv.version == constraint) with
      | some cv => .ok cv
      | none =>
        match parseRange constraint with
        | none => .error s!"invalid version constraint: {constraint}"
        | some r =>
          match pickHighest (vs.filter (fun cv => versionMatchesRange r cv.version)) with
          | some cv => .ok cv
          | none => .error s!"no chart version found for {name}-{constraint}"

/-! ## Go `net/url` embedding

`ResolveReferenceURL` (responses.go:308-322) is built on `url.Parse`,
`URL.ResolveReference` and `URL.String`. The embedding covers the scheme,
host, path, query and fragment components used by the repository code;
user-info, port validation and percent-escape checking are not modelled
(none of the repository's URL constructions use them). -/

/-- The components of a Go `url.URL` that the repository code exercises.
`opq` embeds the `Opaque` component (rootless `scheme:rest` URLs). -/
structure GoURL where
  scheme : String
  opq : String
  host : String
  path : String
  query : String
  fragment : String
deriving DecidableEq, Repr

/-- `strings.Cut`: split at the first occurrence of `sep`, the second
component empty when `sep` does not occur. -/
def cutString (s sep : String) : String × String :=
  match goSplitOn s sep with
  | [] => (s, "")
  | [x] => (x, "")
  | x :: rest => (x, String.intercalate sep rest)

/-- Go `getScheme`: split a leading `scheme:`. `.error` is Go's
"missing protocol scheme" (a `:` before any scheme character);
`("", orig)` means no scheme found. -/
def getSchemeAux (orig : String) : List Char → List Char → Except Unit (String × String)
  | _, [] => .ok ("", orig)
  | acc, c :: rest =>
    if c.isAlpha then getSchemeAux orig (acc ++ [c]) rest
    else if c.isDigit ∨ c = '+' ∨ c = '-' ∨ c = '.' then
      if acc = [] then .ok ("", orig) else getSchemeAux orig (acc ++ [c]) rest
    else if c = ':' then
      if acc = [] then .error () else .ok (String.mk acc, String.mk rest)
    else .ok ("", orig)

/-- Split a string at its first `/`, keeping the slash with the tail
(Go's authority/path split). -/
def splitAtFirstSlash (s : String) : String × String :=
  match s.data.findIdx? (fun c => c = '/') with
  | none => (s, "")
  | some i => (goTake s i, goDrop s i)

/-- Go `url.Parse`, restricted to the components modelled by `GoURL`:
control characters and a leading `:` fail; `scheme:rest` with a rootless
`rest` is opaque; `//authority` is split into host and path; a schemeless
first path segment containing `:` fails. -/
def parseURL (raw : String) : Option GoURL :=
  if raw.data.any (fun c => c.toNat < 0x20 ∨ c.toNat = 0x7f) then none
  else
    let cut1 := cutString raw "#"
    let frag := cut1.2
    match getSchemeAux cut1.1 [] cut1.1.data with
    | .error _ => none
    | .ok (scheme0, rest0) =>
      let scheme := goToLower scheme0
      let cut2 := cutString rest0 "?"
      let rest1 := cut2.1
      let query := cut2.2
      if ¬ goStartsWith rest1 "/" ∧ scheme ≠ "" then
        some ⟨scheme, rest1, "", "", query, frag⟩
      else if scheme = "" ∧ ¬ goStartsWith rest1 "/" ∧
          ((cutString rest1 "/").1.data.contains ':') then none
      else if goStartsWith rest1 "//" ∧ (scheme ≠ "" ∨ ¬ goStartsWith rest1 "///") then
        let auth := splitAtFirstSlash (goDrop rest1 2)
        some ⟨scheme, "", auth.1, auth.2, query, frag⟩
      else
        some ⟨scheme, "", "", rest1, query, frag⟩

/-- Go `url.URL.String` for the modelled components. -/
def urlToString (u : GoURL) : String :=
  let buf := if u.scheme ≠ "" then u.scheme ++ ":" else ""
  let buf :=
    if u.opq ≠ "" then buf ++ u.opq
    else
      let buf :=
        if u.scheme ≠ "" ∨ u.host ≠ "" then
          (if u.host ≠ "" ∨ u.path ≠ "" then buf ++ "//" else buf) ++ u.host
        else buf
      let buf :=
        if u.path ≠ "" ∧ ¬ goStartsWith u.path "/" ∧ u.host ≠ "" then buf ++ "/"
        else buf
      let buf :=
        if buf = "" ∧ ((cutString u.path "/").1.data.contains ':') then buf ++ "./"
        else buf
      buf ++ u.path
  let buf := if u.query ≠ "" then buf ++ "?" ++ u.query else buf
  if u.fragment ≠ "" then buf ++ "#" ++ u.fragment else buf

/-- The prefix of `s` up to and including its last `/` (empty when `s` has
no slash); Go's `base[:strings.LastIndex(base, "/")+1]`. -/
def keepToLastSlash (s : String) : String :=
  String.mk ((s.data.reverse.dropWhile (fun c => c ≠ '/')).reverse)

/-- Go `net/url.resolvePath`: merge `ref` onto `base` and remove `.` and
`..` segments, producing a `/`-rooted path. -/
def goResolvePath (base ref : String) : String :=
  let full :=
    if ref = "" then base
    else if ¬ goStartsWith ref "/" then keepToLastSlash base ++ ref
    else ref
  if full = "" then ""
  else
    let segs := goSplitOn full "/"
    let kept := segs.foldl
      (fun (acc : List String) seg =>
        if seg = "." then acc
        else if seg = ".." then acc.dropLast
        else acc ++ [seg]) []
    let trailing :=
      match segs.getLast? with
      | some s => if s = "." ∨ s = ".." then "/" else ""
      | none => ""
    let r := "/" ++ String.intercalate "/" kept ++ trailing
    if r.length > 1 ∧ goStartsWith (goDrop r 1) "/" then goDrop r 1 else r

/-- Go `url.URL.ResolveReference` over the modelled components: an absolute
reference (scheme or host present) ignores the base apart from scheme
inheritance; an opaque reference keeps its own payload; a relative
reference inherits host (and query/fragment when empty) and merges paths. -/
def resolveReference (u ref : GoURL) : GoURL :=
  let url := if ref.scheme = "" then { ref with scheme := u.scheme } else ref
  if ref.scheme ≠ "" ∨ ref.host ≠ "" then
    { url with path := goResolvePath ref.path "" }
  else if ref.opq ≠ "" then
    { url with host := "", path := "" }
  else
    let url :=
      if ref.path = "" ∧ ref.query = "" then
        { url with query := u.query,
                   fragment := if ref.fragment = "" then u.fragment else ref.fragment }
      else url
    { url with host := u.host, path := goResolvePath u.path ref.path }

/-- `ResolveReferenceURL` (responses.go:308-322): parse both URLs, normalize
the base path to end in exactly one trailing slash, and resolve. -/
def ResolveReferenceURL (baseURL refURL : String) : Except String String :=
  match parseURL baseURL with
  | none => .error s!"failed to parse {baseURL} as URL"
  | some pb =>
    match parseURL refURL with
    | none => .error s!"failed to parse {refURL} as URL"
    | some pr =>
      let pb :=
        { pb with
          path := (if goEndsWith pb.path "/" then goDropRight pb.path 1 else pb.path) ++ "/" }
      .ok (urlToString (resolveReference pb pr))

/-! ## The resolution cache (`IndexFileCache`)

responses.go:84 instantiates `cache.New(3*time.Minute, 3*time.Minute)`:
default TTL three minutes, background sweep every three minutes. The
go-cache store itself is an external dependency not under src/, so its
lookup/insert/delete/sweep semantics are modelled from the spec (§4.3,
§8 TTL behavior): an entry inserted at `T` is found strictly before
`T + TTL` and treated as absent at or after it. -/

/-- The default TTL of `IndexFileCache`, in seconds (`3*time.Minute`,
responses.go:84). -/
def cacheTTLSeconds : Nat := 180

/-- The background sweep period of `IndexFileCache`, in seconds (the second
argument of `cache.New`, responses.go:84). -/
def cacheSweepSeconds : Nat := 180

/-- A value stored in `IndexFileCache`. The store is dynamically typed
(`interface{}` values); the repository code stores either an index snapshot
(`GetAndCacheIndexFile`, responses.go:349) or — at responses.go:289 — the
cache object itself, embedded here as the distinguished value `cacheSelf`. -/
inductive CacheValue where
  | catalog (idx : IndexFile)
  | cacheSelf
deriving DecidableEq, Repr

/-- Modelled from the spec: the process-wide TTL store, keyed by repository
locator, each entry carrying its expiration instant. -/
structure IndexCache where
  entries : List (String × CacheValue × Nat)
deriving DecidableEq, Repr

/-- Modelled from the spec: cache lookup — found exactly when the current
instant is strictly before the entry's expiration (§8 TTL behavior). -/
def IndexCache.get (c : IndexCache) (now : Nat) (k : String) : Option CacheValue :=
  match c.entries.find? (fun e => e.1 == k) with
  | some e => if now < e.2.2 then some e.2.1 else none
  | none => none

/-- Modelled from the spec: insert with the default TTL, replacing any entry
for the same locator. -/
def IndexCache.set (c : IndexCache) (now : Nat) (k : String) (v : CacheValue) :
    IndexCache :=
  ⟨(k, v, now + cacheTTLSeconds) :: c.entries.filter (fun e => !(e.1 == k))⟩

/-- Modelled from the spec: remove the entry for a locator. -/
def IndexCache.delete (c : IndexCache) (k : String) : IndexCache :=
  ⟨c.entries.filter (fun e => !(e.1 == k))⟩

/-- Modelled from the spec: the periodic sweep removes every expired entry,
independent of lookup activity. -/
def IndexCache.sweep (c : IndexCache) (now : Nat) : IndexCache :=
  ⟨c.entries.filter (fun e => now < e.2.2)⟩

/-! ## `GetAndCacheIndexFile` and `FindChartInAuthRepoURL`

The network is abstracted as a fetch oracle `fetch : Nat → FetchOutcome`
giving the outcome of the n-th `NewChartRepository` + `DownloadIndexFile`
round of this call (the repository connection parameters are fixed for the
whole call, so the oracle closes over them). The disk mirror files written
by `DownloadIndexFile` and the random ephemeral repository name are I/O
side effects outside the resolution result and are elided. The process-wide
`mu` lock serializes the whole sequence; the embedding is the body the lock
protects. -/

/-- Outcome of one `NewChartRepository` + `DownloadIndexFile` round:
constructor failure (bad URL / no scheme handler, returned unwrapped),
download failure (wrapped by `GetAndCacheIndexFile`), or a parsed index. -/
inductive FetchOutcome where
  | ctorFailed (msg : String)
  | fetchFailed (msg : String)
  | ok (idx : IndexFile)
deriving DecidableEq, Repr

/-- `GetAndCacheIndexFile` (responses.go:324-351): build an ephemeral
repository for the locator, download and parse its index, cache the result
under the locator with the default TTL, and return it; a download failure
is wrapped with the "not a valid chart repository" context. -/
def GetAndCacheIndexFile (repoURL : String) (outcome : FetchOutcome)
    (c : IndexCache) (now : Nat) : Except String IndexFile × IndexCache :=
  match outcome with
  | .ctorFailed m => (.error m, c)
  | .fetchFailed m =>
    (.error s!"looks like \"{repoURL}\" is not a valid chart repository or cannot be reached: {m}",
     c)
  | .ok idx => (.ok idx, c.set now repoURL (.catalog idx))

/-- The error kinds a resolution can surface. `typeAssertionPanic` embeds
the Go runtime panic of the cache-hit branch's `value.(*IndexFile)`
assertion (responses.go:269) on a non-index cache value; it is a crash,
not a returned error, and is kept distinguished. -/
inductive RepoError where
  | fetch (msg : String)
  | chartNotFound (msg : String)
  | noDownloadableURLs (msg : String)
  | urlResolution (msg : String)
  | typeAssertionPanic
deriving DecidableEq, Repr

/-- The `errMsg` of responses.go:272-275: the package, and the constraint
when non-empty. -/
def chartErrMsg (chartName chartVersion : String) : String :=
  if chartVersion = "" then s!"chart \"{chartName}\""
  else s!"chart \"{chartName}\" version \"{chartVersion}\""

/-- Lines 292-303 of responses.go: an empty URL list fails with the
no-downloadable-URLs error; otherwise the first URL is resolved against the
repository base URL, resolution failures being wrapped. -/
def finishResolve (errMsg repoURL : String) (cv : ChartVersion) :
    Except RepoError String :=
  match cv.urls with
  | [] => .error (.noDownloadableURLs s!"{errMsg} has no downloadable URLs")
  | u :: _ =>
    match ResolveReferenceURL repoURL u with
    | .error e => .error (.urlResolution s!"failed to make chart URL absolute: {e}")
    | .ok abs => .ok abs

instance {ε α : Type} [DecidableEq ε] [DecidableEq α] : DecidableEq (Except ε α) :=
  fun a b =>
    match a, b with
    | .ok x, .ok y =>
      if h : x = y then isTrue (by rw [h]) else isFalse (by simp [h])
    | .error x, .error y =>
      if h : x = y then isTrue (by rw [h]) else isFalse (by simp [h])
    | .ok _, .error _ => isFalse (by simp)
    | .error _, .ok _ => isFalse (by simp)

/-- Observable outcome of one `FindChartInAuthRepoURL` call: the returned
value or error, the final cache state, and instrumentation counters — how
many fetch rounds and how many `IndexFile.Get` attempts ran. -/
structure ResolveResult where
  result : Except RepoError String
  cache : IndexCache
  fetchCalls : Nat
  getAttempts : Nat
deriving DecidableEq, Repr

/-- Lines 272-303 of responses.go, entered with the chosen catalog: first
`Get` attempt; on failure delete the cache entry, unconditionally refetch
via `GetAndCacheIndexFile`, retry `Get` exactly once, and fail terminally
with the chart-not-found message when the retry also fails. On a retry
success, line 289 runs `IndexFileCache.Set(repoURL, IndexFileCache, ...)`,
storing the cache object itself — embedded as `.cacheSelf`. -/
def resolveAfterIndex (repoURL chartName chartVersion : String)
    (fetch : Nat → FetchOutcome) (repoIndex : IndexFile)
    (c : IndexCache) (now : Nat) (fetchesUsed : Nat) : ResolveResult :=
  let errMsg := chartErrMsg chartName chartVersion
  match repoIndex.get chartName chartVersion with
  | .ok cv => ⟨finishResolve errMsg repoURL cv, c, fetchesUsed, 1⟩
  | .error _ =>
    let c1 := c.delete repoURL
    match GetAndCacheIndexFile repoURL (fetch fetchesUsed) c1 now with
    | (.error e, c2) => ⟨.error (.fetch e), c2, fetchesUsed + 1, 1⟩
    | (.ok idx2, c2) =>
      match idx2.get chartName chartVersion with
      | .error _ =>
        ⟨.error (.chartNotFound s!"{errMsg} not found in {repoURL} repository"),
         c2, fetchesUsed + 1, 2⟩
      | .ok cv =>
        let c3 := c2.set now repoURL .cacheSelf
        ⟨finishResolve errMsg repoURL cv, c3, fetchesUsed + 1, 2⟩

/-- `FindChartInAuthRepoURL` (responses.go:254-304): under the process-wide
lock, consult the cache for the locator; on a miss fetch and cache the
index; on a hit assert the cached value is an index (panicking otherwise);
then resolve with the one-shot invalidate-and-retry protocol. -/
def FindChartInAuthRepoURL
    (repoURL username password chartName chartVersion certFile keyFile caFile : String)
    (fetch : Nat → FetchOutcome) (c0 : IndexCache) (now : Nat) : ResolveResult :=
  match c0.get now repoURL with
  | none =>
    match GetAndCacheIndexFile repoURL (fetch 0) c0 now with
    | (.error e, c1) => ⟨.error (.fetch e), c1, 1, 0⟩
    | (.ok idx, c1) =>
      resolveAfterIndex repoURL chartName chartVersion fetch idx c1 now 1
  | some (.catalog idx) =>
    resolveAfterIndex repoURL chartName chartVersion fetch idx c0 now 0
  | some .cacheSelf => ⟨.error .typeAssertionPanic, c0, 0, 0⟩

/-- `FindChartInRepoURL` (responses.go:247-249): the unauthenticated lookup,
delegating to the authenticated one with empty credentials. -/
def FindChartInRepoURL
    (repoURL chartName chartVersion certFile keyFile caFile : String)
    (fetch : Nat → FetchOutcome) (c0 : IndexCache) (now : Nat) : ResolveResult :=
  FindChartInAuthRepoURL repoURL "" "" chartName chartVersion certFile keyFile caFile
    fetch c0 now

/-- The catalog `FindChartInAuthRepoURL` runs its first `Get` against, and
the number of fetch rounds spent obtaining it: the cached snapshot on a
hit, the freshly fetched index on a miss. -/
def chosenIndex (repoURL : String) (fetch : Nat → FetchOutcome)
    (c0 : IndexCache) (now : Nat) : Option (IndexFile × Nat) :=
  match c0.get now repoURL with
  | some (.catalog idx) => some (idx, 0)
  | some .cacheSelf => none
  | none =>
    match fetch 0 with
    | .ok idx => some (idx, 1)
    | _ => none

/-! ## Index generation and the canonical index file name -/

/-- `strings.Contains`: does `sub` occur as a substring of `s`? -/
def goStringsContains (s sub : String) : Bool :=
  if sub = "" then true else (goSplitOn s sub).length > 1

/-- The local-index recognizer of `ChartRepository.Load` (responses.go:146):
a non-directory file is parsed as an index exactly when its name contains
the substring `"-index.yaml"`. -/
def loadRecognizesIndex (fileName : String) : Bool :=
  goStringsContains fileName "-index.yaml"

/-- The fixed file name `DownloadIndexFile` joins onto the repository base
URL path (responses.go:167-168). -/
def remoteIndexFileName : String := "index.yaml"

/-- Go `path.Clean`: collapse the path lexically — drop empty and `.`
segments, resolve `..` against preceding segments (keeping unmatched `..`
in relative paths), preserve rootedness, empty result becoming `.`. -/
def goPathClean (p : String) : String :=
  if p = "" then "."
  else
    let rooted := goStartsWith p "/"
    let kept := (goSplitOn p "/").foldl
      (fun (acc : List String) seg =>
        if seg = "" ∨ seg = "." then acc
        else if seg = ".." then
          match acc with
          | [] => if rooted then [] else [".."]
          | a :: rest => if a = ".." then ".." :: acc else rest
        else seg :: acc) []
    let body := String.intercalate "/" kept.reverse
    if rooted then "/" ++ body
    else if body = "" then "." else body

/-- Go `path.Join` for two elements: skip leading empty elements, join with
`/` and clean. -/
def goPathJoin (a b : String) : String :=
  if a = "" then (if b = "" then "" else goPathClean b)
  else goPathClean (a ++ "/" ++ b)

/-- The URL path `DownloadIndexFile` requests: the base URL's path with the
canonical index file name joined on (responses.go:167-168). -/
def downloadIndexPath (basePath : String) : String :=
  goPathJoin basePath remoteIndexFileName

/-! ## `generateIndex` (responses.go:224-243)

`loader.Load` and `provenance.DigestFile` are external collaborators;
they are abstracted as oracles from the archive path to the loaded
package's (name, version) and to its content digest, failure as `none`
(either failure aborts the generation, as in the source). -/

/-- Modelled from the spec: the record `IndexFile.Add` builds inside
`generateIndex` — the download URL "resolved relative to the repository's
base URL and path" (§4.2), here the base URL joined with the archive's
file name (an empty base URL keeping the bare path). -/
def mkChartRecord (name version digest baseURL p : String) : ChartVersion :=
  let file := (goSplitOn p "/").getLastD p
  ⟨name, version, digest, [if baseURL = "" then p else baseURL ++ "/" ++ file], 0⟩

/-- One iteration of `generateIndex`'s loop over recorded archive paths:
load the package metadata and digest, abort on failure, and `Add` the
record exactly when `Has(name, version)` is false. -/
def genStep (loadChart : String → Option (String × String))
    (digestOf : String → Option String) (baseURL : String)
    (acc : Option IndexFile) (p : String) : Option IndexFile :=
  match acc with
  | none => none
  | some i =>
    match loadChart p, digestOf p with
    | some nv, some d =>
      if i.has nv.1 nv.2 then some i
      else some (i.add (mkChartRecord nv.1 nv.2 d baseURL p))
    | _, _ => none

/-- The per-archive loop of `generateIndex` over all recorded archives. -/
def generateIndexRaw (loadChart : String → Option (String × String))
    (digestOf : String → Option String) (chartPaths : List String)
    (baseURL : String) (i0 : IndexFile) : Option IndexFile :=
  chartPaths.foldl (genStep loadChart digestOf baseURL) (some i0)

/-- `generateIndex` (responses.go:224-243): run the per-archive loop and
finish by calling `SortEntries`. -/
def generateIndex (loadChart : String → Option (String × String))
    (digestOf : String → Option String) (chartPaths : List String)
    (baseURL : String) (i0 : IndexFile) : Option IndexFile :=
  (generateIndexRaw loadChart digestOf chartPaths baseURL i0).map IndexFile.sortEntries

/-! ## The `index` entry point (cmd/helm/repo_index.go:86-109)

`repo.IndexDirectory` (pkg/repo, not under src/) is abstracted as the
freshly generated local index (or its failure); the merge target's
existence and load outcome are likewise inputs. File writes are embedded
as the ordered list of (path, catalog) pairs the call persists; note the
source discards the error of the empty catalog's write (line 98). -/

def index (dir url mergeTo : String) (now : Nat)
    (indexDirResult : Except String IndexFile)
    (mergeToExists : Bool) (loadMergeResult : Except String IndexFile) :
    Except String (List (String × IndexFile)) :=
  let out := goPathJoin dir "index.yaml"
  match indexDirResult with
  | .error e => .error e
  | .ok i =>
    if mergeTo ≠ "" then
      if ¬ mergeToExists then
        let i2 := NewIndexFile now
        .ok [(mergeTo, i2), (out, (i.merge i2).sortEntries)]
      else
        match loadMergeResult with
        | .error e => .error s!"merge failed: {e}"
        | .ok i2 => .ok [(out, (i.merge i2).sortEntries)]
    else .ok [(out, i.sortEntries)]

/-! ## Helper lemmas: association-list entries, sorting, the pinned-record
invariant -/

theorem lookupPkg_setPkgAppend_same (es : List (String × List ChartVersion))
    (n : String) (extra : List ChartVersion) :
    lookupPkg (setPkgAppend es n extra) n = some ((lookupPkg es n).getD [] ++ extra) := by
  induction es with
  | nil => simp [setPkgAppend, lookupPkg]
  | cons p rest ih =>
    by_cases h : p.1 = n
    · simp [setPkgAppend, lookupPkg, h]
    · have hb : (p.1 == n) = false := beq_eq_false_iff_ne.mpr h
      simp only [setPkgAppend, hb, Bool.false_eq_true, if_false, lookupPkg]
      exact ih

theorem lookupPkg_setPkgAppend_other (es : List (String × List ChartVersion))
    (n m : String) (extra : List ChartVersion) (h : m ≠ n) :
    lookupPkg (setPkgAppend es n extra) m = lookupPkg es m := by
  have hnm : (n == m) = false := beq_eq_false_iff_ne.mpr fun hh => h hh.symm
  induction es with
  | nil => simp [setPkgAppend, lookupPkg, hnm]
  | cons p rest ih =>
    by_cases hp : p.1 = n
    · have hpt : (p.1 == n) = true := beq_iff_eq.mpr hp
      have hpm : (p.1 == m) = false := by rw [hp]; exact hnm
      simp only [setPkgAppend, hpt, if_true, lookupPkg, hpm, Bool.false_eq_true, if_false]
    · have hpf : (p.1 == n) = false := beq_eq_false_iff_ne.mpr hp
      simp only [setPkgAppend, hpf, Bool.false_eq_true, if_false, lookupPkg]
      by_cases hm : p.1 = m
      · simp [beq_iff_eq.mpr hm]
      · have hpm : (p.1 == m) = false := beq_eq_false_iff_ne.mpr hm
        simp only [hpm, Bool.false_eq_true, if_false]
        exact ih

/-- The pinned-record invariant: package `n`'s sequence holds record `cv` of
version `v`, and no other record of that package carries the same version
string (the spec's §3 catalog invariant). -/
def RecordPinned (i : IndexFile) (n v : String) (cv : ChartVersion) : Prop :=
  ∃ ws, lookupPkg i.entries n = some ws ∧ cv ∈ ws ∧ cv.version = v ∧
    ∀ x ∈ ws, x.version = v → x = cv

theorem IndexFile.has_of_pinned {i : IndexFile} {n v : String} {cv : ChartVersion}
    (h : RecordPinned i n v cv) : i.has n v = true := by
  obtain ⟨ws, hl, hm, hv, _⟩ := h
  simp only [IndexFile.has, hl, List.any_eq_true]
  exact ⟨cv, hm, by simp [hv]⟩

theorem recordPinned_setPkgAppend {i : IndexFile} {n v : String} {cv : ChartVersion}
    (m : String) (extra : List ChartVersion) (h : RecordPinned i n v cv)
    (hsafe : m = n → ∀ x ∈ extra, x.version ≠ v) :
    RecordPinned { i with entries := setPkgAppend i.entries m extra } n v cv := by
  obtain ⟨ws, hl, hm, hv, hu⟩ := h
  by_cases hmn : m = n
  · subst hmn
    refine ⟨ws ++ extra, ?_, List.mem_append_left _ hm, hv, ?_⟩
    · rw [lookupPkg_setPkgAppend_same, hl]
      rfl
    · intro x hx hxv
      rcases List.mem_append.mp hx with h1 | h2
      · exact hu x h1 hxv
      · exact absurd hxv (hsafe rfl x h2)
  · exact ⟨ws, by rw [lookupPkg_setPkgAppend_other _ _ _ _ fun hh => hmn hh.symm]; exact hl,
      hm, hv, hu⟩

theorem recordPinned_add {i : IndexFile} {n v : String} {cv : ChartVersion}
    (cv' : ChartVersion) (h : RecordPinned i n v cv) :
    RecordPinned (i.add cv') n v cv := by
  unfold IndexFile.add
  by_cases hh : i.has cv'.name cv'.version = true
  · rw [if_pos hh]; exact h
  · rw [if_neg hh]
    refine recordPinned_setPkgAppend _ _ h ?_
    intro hmn x hx hxv
    simp only [List.mem_singleton] at hx
    subst hx
    exact hh (by rw [hmn, hxv]; exact IndexFile.has_of_pinned h)

theorem recordPinned_merge {n v : String} {cv : ChartVersion} (i other : IndexFile)
    (h : RecordPinned i n v cv) : RecordPinned (i.merge other) n v cv := by
  unfold IndexFile.merge
  induction other.entries generalizing i with
  | nil => simpa using h
  | cons p ps ih =>
    simp only [List.foldl_cons]
    apply ih
    cases hl : lookupPkg i.entries p.1 with
    | none =>
      simp only [hl]
      refine recordPinned_setPkgAppend _ _ h ?_
      intro hmn
      exfalso
      obtain ⟨ws, hws, _⟩ := h
      rw [hmn, hws] at hl
      cases hl
    | some ws =>
      simp only [hl]
      refine recordPinned_setPkgAppend _ _ h ?_
      intro hmn x hx hxv
      obtain ⟨ws', hws', hm', hv', _⟩ := h
      rw [hmn, hws'] at hl
      injection hl with hww
      rcases List.mem_filter.mp hx with ⟨_, hcond⟩
      simp only [Bool.not_eq_true', List.any_eq_false, beq_iff_eq] at hcond
      exact absurd rfl (hv'.trans hxv.symm ▸ hcond cv (hww ▸ hm'))

theorem insertBy_perm (le : α → α → Bool) (x : α) (l : List α) :
    (insertBy le x l).Perm (x :: l) := by
  induction l with
  | nil => exact List.Perm.refl _
  | cons y ys ih =>
    unfold insertBy
    by_cases h : le x y = true
    · rw [if_pos h]
    · rw [if_neg h]
      exact (ih.cons y).trans (List.Perm.swap x y ys)

theorem sortByRel_perm (le : α → α → Bool) (l : List α) :
    (sortByRel le l).Perm l := by
  induction l with
  | nil => exact List.Perm.refl _
  | cons y ys ih =>
    simp only [sortByRel, List.foldr_cons]
    exact (insertBy_perm le y _).trans (ih.cons y)

theorem lookupPkg_map_sort (es : List (String × List ChartVersion)) (n : String) :
    lookupPkg (es.map (fun p => (p.1, sortByRel beforeDesc p.2))) n
      = (lookupPkg es n).map (sortByRel beforeDesc) := by
  induction es with
  | nil => rfl
  | cons p rest ih =>
    by_cases h : p.1 = n
    · simp [lookupPkg, beq_iff_eq.mpr h]
    · have hb : (p.1 == n) = false := beq_eq_false_iff_ne.mpr h
      simp only [List.map_cons, lookupPkg, hb, Bool.false_eq_true, if_false]
      exact ih

theorem recordPinned_sortEntries {i : IndexFile} {n v : String} {cv : ChartVersion}
    (h : RecordPinned i n v cv) : RecordPinned i.sortEntries n v cv := by
  obtain ⟨ws, hl, hm, hv, hu⟩ := h
  refine ⟨sortByRel beforeDesc ws, ?_, ?_, hv, ?_⟩
  · show lookupPkg (i.entries.map fun p => (p.1, sortByRel beforeDesc p.2)) n = _
    rw [lookupPkg_map_sort, hl]
    rfl
  · exact ((sortByRel_perm beforeDesc ws).mem_iff).mpr hm
  · intro x hx
    exact hu x (((sortByRel_perm beforeDesc ws).mem_iff).mp hx)

theorem find?_version_unique (l : List ChartVersion) (v : String) (cv : ChartVersion)
    (hm : cv ∈ l) (hv : cv.version = v)
    (hu : ∀ x ∈ l, x.version = v → x = cv) :
    l.find? (fun x => x.version == v) = some cv := by
  induction l with
  | nil => cases hm
  | cons y ys ih =>
    by_cases hy : y.version = v
    · have hycv : y = cv := hu y (List.mem_cons_self _ _) hy
      subst hycv
      simp [List.find?_cons_of_pos, hy]
    · rw [List.find?_cons_of_neg _ (by simpa using hy)]
      rcases List.mem_cons.mp hm with rfl | hmem
      · exact absurd hv hy
      · exact ih hmem fun x hx => hu x (List.mem_cons_of_mem _ hx)

/-- The record of package `n` at exact version `v` (first match, as Go). -/
def findRecord (i : IndexFile) (n v : String) : Option ChartVersion :=
  match lookupPkg i.entries n with
  | none => none
  | some vs => vs.find? (fun cv => cv.version == v)

theorem findRecord_of_pinned {i : IndexFile} {n v : String} {cv : ChartVersion}
    (h : RecordPinned i n v cv) : findRecord i n v = some cv := by
  obtain ⟨ws, hl, hm, hv, hu⟩ := h
  unfold findRecord
  rw [hl]
  exact find?_version_unique ws v cv hm hv hu

theorem IndexCache.get_set_lt (c : IndexCache) (k : String) (v : CacheValue)
    (T t : Nat) (h : t < T + cacheTTLSeconds) : (c.set T k v).get t k = some v := by
  simp [IndexCache.get, IndexCache.set, List.find?_cons, h]

theorem IndexCache.get_set_ge (c : IndexCache) (k : String) (v : CacheValue)
    (T t : Nat) (h : T + cacheTTLSeconds ≤ t) : (c.set T k v).get t k = none := by
  simp [IndexCache.get, IndexCache.set, List.find?_cons]
  omega

/-! ## Reduction lemmas for the resolution pipeline -/

theorem findChart_eq_resolveAfterIndex
    (repoURL username password chartName chartVersion certFile keyFile caFile : String)
    (fetch : Nat → FetchOutcome) (c0 : IndexCache) (now : Nat)
    (idx1 : IndexFile) (k : Nat)
    (h1 : chosenIndex repoURL fetch c0 now = some (idx1, k)) :
    ∃ c', FindChartInAuthRepoURL repoURL username password chartName chartVersion
        certFile keyFile caFile fetch c0 now
      = resolveAfterIndex repoURL chartName chartVersion fetch idx1 c' now k := by
  unfold chosenIndex at h1
  cases hc : c0.get now repoURL with
  | none =>
    rw [hc] at h1
    cases hf : fetch 0 with
    | ctorFailed m => rw [hf] at h1; cases h1
    | fetchFailed m => rw [hf] at h1; cases h1
    | ok idx =>
      rw [hf] at h1
      simp only [Option.some.injEq, Prod.mk.injEq] at h1
      refine ⟨c0.set now repoURL (.catalog idx), ?_⟩
      rw [← h1.1, ← h1.2]
      simp only [FindChartInAuthRepoURL, hc, GetAndCacheIndexFile, hf]
  | some v =>
    cases v with
    | cacheSelf => rw [hc] at h1; cases h1
    | catalog idx =>
      rw [hc] at h1
      simp only [Option.some.injEq, Prod.mk.injEq] at h1
      refine ⟨c0, ?_⟩
      rw [← h1.1, ← h1.2]
      simp only [FindChartInAuthRepoURL, hc]

theorem foldl_genStep_none (loadChart : String → Option (String × String))
    (digestOf : String → Option String) (baseURL : String) (paths : List String) :
    paths.foldl (genStep loadChart digestOf baseURL) none = none := by
  induction paths with
  | nil => rfl
  | cons p ps ih => simpa [genStep] using ih

theorem genStep_pinned {n v : String} {cv : ChartVersion}
    (loadChart : String → Option (String × String)) (digestOf : String → Option String)
    (baseURL p : String) {i i' : IndexFile}
    (hstep : genStep loadChart digestOf baseURL (some i) p = some i')
    (h : RecordPinned i n v cv) : RecordPinned i' n v cv := by
  cases hl : loadChart p with
  | none => simp [genStep, hl] at hstep
  | some nv =>
    cases hd : digestOf p with
    | none => simp [genStep, hl, hd] at hstep
    | some d =>
      by_cases hh : i.has nv.1 nv.2 = true
      · simp only [genStep, hl, hd, if_pos hh] at hstep
        exact (Option.some.inj hstep) ▸ h
      · simp only [genStep, hl, hd, if_neg hh] at hstep
        exact (Option.some.inj hstep) ▸ recordPinned_add _ h

theorem generateIndexRaw_pinned {n v : String} {cv : ChartVersion}
    (loadChart : String → Option (String × String)) (digestOf : String → Option String)
    (baseURL : String) (paths : List String) :
    ∀ i i' : IndexFile,
      paths.foldl (genStep loadChart digestOf baseURL) (some i) = some i' →
      RecordPinned i n v cv → RecordPinned i' n v cv := by
  induction paths with
  | nil =>
    intro i i' h hp
    exact (Option.some.inj h) ▸ hp
  | cons p ps ih =>
    intro i i' h hp
    simp only [List.foldl_cons] at h
    cases hs : genStep loadChart digestOf baseURL (some i) p with
    | none =>
      rw [hs, foldl_genStep_none] at h
      cases h
    | some j =>
      rw [hs] at h
      exact ih j i' h (genStep_pinned loadChart digestOf baseURL p hs hp)

/-! ## Claim theorems -/

/-- C3 (counterexample): the claim that one single fixed index file name
serves both the local scan and the remote fetch fails on the code —
`DownloadIndexFile` appends exactly `"index.yaml"` to the base URL path
(responses.go:167-168), but `Load`'s recognizer (responses.go:146) matches
the substring `"-index.yaml"`, which a file named exactly `"index.yaml"`
does not contain. -/
theorem load_not_recognize_remote_name :
    downloadIndexPath "/charts" = "/charts/index.yaml" ∧
    loadRecognizesIndex remoteIndexFileName = false := by
  constructor <;> decide

/-- C3 (amended): the remote fetch joins the fixed segment `"index.yaml"`
onto the repository base URL path, while the local scan recognizes exactly
the files whose name contains the substring `"-index.yaml"`; hence a file
bearing the exact remote name is not recognized locally, but suffixed names
such as `"local-index.yaml"` are. -/
theorem indexFileName_split :
    remoteIndexFileName = "index.yaml" ∧
    downloadIndexPath "/charts" = "/charts/index.yaml" ∧
    downloadIndexPath "/" = "/index.yaml" ∧
    loadRecognizesIndex "index.yaml" = false ∧
    loadRecognizesIndex "local-index.yaml" = true ∧
    loadRecognizesIndex "test-index.yaml" = true := by
  refine ⟨rfl, ?_, ?_, ?_, ?_, ?_⟩ <;> decide

theorem resolveReference_absolute (u r : GoURL) (h : ¬ r.scheme = "") :
    resolveReference u r = { r with path := goResolvePath r.path "" } := by
  simp only [resolveReference, if_neg h]
  rw [if_pos (Or.inl h)]

/-- C6: resolving `"foo-1.0.0.tgz"` against `"https://repo.example/charts/"`
yields `"https://repo.example/charts/foo-1.0.0.tgz"`, and for every
parseable base URL, resolving the absolute `"https://other/x.tgz"` returns
it unchanged. -/
theorem resolveReferenceURL_join_spec :
    (ResolveReferenceURL "https://repo.example/charts/" "foo-1.0.0.tgz"
      = .ok "https://repo.example/charts/foo-1.0.0.tgz") ∧
    ∀ base : String, (parseURL base).isSome →
      ResolveReferenceURL base "https://other/x.tgz" = .ok "https://other/x.tgz" := by
  constructor
  · rfl
  · intro base h
    obtain ⟨b, hb⟩ := Option.isSome_iff_exists.mp h
    have hr : parseURL "https://other/x.tgz"
        = some ⟨"https", "", "other", "/x.tgz", "", ""⟩ := rfl
    simp only [ResolveReferenceURL, hb, hr]
    rw [resolveReference_absolute _ _ (by simp)]
    rfl

/-- C6 witness: the universal part at the concrete base
`"https://repo.example/"`. -/
theorem resolveReferenceURL_join_spec_witness :
    ResolveReferenceURL "https://repo.example/" "https://other/x.tgz"
      = .ok "https://other/x.tgz" :=
  resolveReferenceURL_join_spec.2 "https://repo.example/" (by rfl)

/-- C8: an entry inserted at `T` with the default TTL is found by a lookup
strictly before `T + TTL` and treated as absent at or after it; the
background sweep runs on the same period as the TTL (both arguments of
`cache.New` at responses.go:84 are three minutes) and removes the expired
entry. -/
theorem cacheTTL_spec (c : IndexCache) (k : String) (v : CacheValue) (T t : Nat) :
    (t < T + cacheTTLSeconds → (c.set T k v).get t k = some v) ∧
    (T + cacheTTLSeconds ≤ t → (c.set T k v).get t k = none) ∧
    cacheSweepSeconds = cacheTTLSeconds ∧
    (T + cacheTTLSeconds ≤ t →
      ((c.set T k v).sweep t).entries.find? (fun e => e.1 == k) = none) := by
  refine ⟨IndexCache.get_set_lt c k v T t, IndexCache.get_set_ge c k v T t, rfl, ?_⟩
  intro h
  rw [List.find?_eq_none]
  intro e he
  rcases List.mem_filter.mp he with ⟨hmem, hlt⟩
  rcases List.mem_cons.mp hmem with rfl | hmem2
  · simp only [decide_eq_true_eq, cacheTTLSeconds] at hlt
    simp only [cacheTTLSeconds] at h
    omega
  · rcases List.mem_filter.mp hmem2 with ⟨_, hk⟩
    simpa using hk

/-- C8 witness: with the three-minute TTL, an entry inserted at 0 is found
at 179 seconds and gone at 180 seconds. -/
theorem cacheTTL_spec_witness :
    ((⟨[]⟩ : IndexCache).set 0 "https://repo.example/charts/"
        (.catalog (NewIndexFile 0))).get 179 "https://repo.example/charts/"
      = some (.catalog (NewIndexFile 0)) ∧
    ((⟨[]⟩ : IndexCache).set 0 "https://repo.example/charts/"
        (.catalog (NewIndexFile 0))).get 180 "https://repo.example/charts/"
      = none :=
  ⟨(cacheTTL_spec ⟨[]⟩ "https://repo.example/charts/" (.catalog (NewIndexFile 0)) 0 179).1
      (by decide),
   (cacheTTL_spec ⟨[]⟩ "https://repo.example/charts/" (.catalog (NewIndexFile 0)) 0 180).2.1
      (by decide)⟩

/-- C10: the unauthenticated lookup `FindChartInRepoURL` returns exactly
the result of the authenticated `FindChartInAuthRepoURL` with empty
username and password, for every input (responses.go:247-249 delegates). -/
theorem findChartInRepoURL_eq_auth
    (repoURL chartName chartVersion certFile keyFile caFile : String)
    (fetch : Nat → FetchOutcome) (c0 : IndexCache) (now : Nat) :
    FindChartInRepoURL repoURL chartName chartVersion certFile keyFile caFile fetch c0 now
      = FindChartInAuthRepoURL repoURL "" "" chartName chartVersion certFile keyFile caFile
          fetch c0 now := rfl

/-! ### Concrete fixtures for witnesses and counterexamples -/

def exampleRepoURL : String := "https://repo.example/charts/"

/-- A catalog that does not know any chart (a stale snapshot). -/
def staleIndex : IndexFile := ⟨"v1", 0, []⟩

def fooRecord : ChartVersion := ⟨"foo", "1.0.0", "sha256:abc", ["foo-1.0.0.tgz"], 0⟩

/-- A catalog holding `foo` at `1.0.0`. -/
def freshIndex : IndexFile := ⟨"v1", 0, [("foo", [fooRecord])]⟩

/-- Fetch oracle: the first round returns the stale catalog, every retry the
fresh one. -/
def staleThenFresh (nCall : Nat) : FetchOutcome :=
  if nCall = 0 then .ok staleIndex else .ok freshIndex

/-- Fetch oracle: every round returns the stale catalog. -/
def alwaysStale (_nCall : Nat) : FetchOutcome := .ok staleIndex

/-- C1: when the first `Get` on the chosen catalog fails, `Resolve` deletes
the cache entry for the locator, unconditionally re-fetches (cache hit and
miss alike — `k` fetches were used before the first `Get`), retries `Get`
exactly once (two `Get` attempts, exactly one extra fetch round, no further
cycles), and when the retry also fails returns the terminal chart-not-found
error naming the package, the constraint when non-empty, and the locator;
the refetched catalog is what remains cached. -/
theorem resolve_notFound_retries_once
    (repoURL username password chartName chartVersion certFile keyFile caFile : String)
    (fetch : Nat → FetchOutcome) (c0 : IndexCache) (now : Nat)
    (idx1 idx2 : IndexFile) (k : Nat) (e1 e2 : String) (R : ResolveResult)
    (hR : R = FindChartInAuthRepoURL repoURL username password chartName chartVersion
        certFile keyFile caFile fetch c0 now)
    (h1 : chosenIndex repoURL fetch c0 now = some (idx1, k))
    (h2 : idx1.get chartName chartVersion = .error e1)
    (h3 : fetch k = .ok idx2)
    (h4 : idx2.get chartName chartVersion = .error e2) :
    R.result = .error (.chartNotFound
        s!"{chartErrMsg chartName chartVersion} not found in {repoURL} repository") ∧
    R.getAttempts = 2 ∧
    R.fetchCalls = k + 1 ∧
    R.cache.get now repoURL = some (.catalog idx2) := by
  obtain ⟨c', hEq⟩ := findChart_eq_resolveAfterIndex repoURL username password chartName
    chartVersion certFile keyFile caFile fetch c0 now idx1 k h1
  subst hR
  rw [hEq]
  simp only [resolveAfterIndex, h2, GetAndCacheIndexFile, h3, h4]
  exact ⟨trivial, trivial, trivial,
    IndexCache.get_set_lt _ _ _ _ _ (Nat.lt_add_of_pos_right (by decide))⟩

/-- C1 witness: a cache miss followed by two stale fetches — the lookup of
`foo` at `1.0.0` fails twice and surfaces the terminal error after exactly
two fetch rounds and two `Get` attempts. -/
theorem resolve_notFound_retries_once_witness :
    (FindChartInAuthRepoURL exampleRepoURL "" "" "foo" "1.0.0" "" "" ""
        alwaysStale ⟨[]⟩ 0).result
      = .error (.chartNotFound
          "chart \"foo\" version \"1.0.0\" not found in https://repo.example/charts/ repository") ∧
    (FindChartInAuthRepoURL exampleRepoURL "" "" "foo" "1.0.0" "" "" ""
        alwaysStale ⟨[]⟩ 0).getAttempts = 2 ∧
    (FindChartInAuthRepoURL exampleRepoURL "" "" "foo" "1.0.0" "" "" ""
        alwaysStale ⟨[]⟩ 0).fetchCalls = 1 + 1 ∧
    (FindChartInAuthRepoURL exampleRepoURL "" "" "foo" "1.0.0" "" "" ""
        alwaysStale ⟨[]⟩ 0).cache.get 0 exampleRepoURL = some (.catalog staleIndex) :=
  resolve_notFound_retries_once exampleRepoURL "" "" "foo" "1.0.0" "" "" ""
    alwaysStale ⟨[]⟩ 0 staleIndex staleIndex 1
    "no chart name found: foo" "no chart name found: foo" _ rfl rfl rfl rfl rfl

/-- C2: the claim that every cached value is a catalog snapshot fails on the
code. responses.go:289 runs `IndexFileCache.Set(repoURL, IndexFileCache, ...)`
after a successful retry, storing the cache object itself under the locator;
the next call's cache hit then fails its `value.(*IndexFile)` type assertion
(a runtime panic), instead of obtaining a catalog. -/
theorem resolveRetry_poisons_cache :
    (FindChartInAuthRepoURL exampleRepoURL "" "" "foo" "1.0.0" "" "" ""
        staleThenFresh ⟨[]⟩ 0).result
      = .ok "https://repo.example/charts/foo-1.0.0.tgz" ∧
    (FindChartInAuthRepoURL exampleRepoURL "" "" "foo" "1.0.0" "" "" ""
        staleThenFresh ⟨[]⟩ 0).cache.get 0 exampleRepoURL = some .cacheSelf ∧
    (FindChartInAuthRepoURL exampleRepoURL "" "" "foo" "1.0.0" "" "" ""
        staleThenFresh
        (FindChartInAuthRepoURL exampleRepoURL "" "" "foo" "1.0.0" "" "" ""
          staleThenFresh ⟨[]⟩ 0).cache 0).result
      = .error .typeAssertionPanic := by
  refine ⟨?_, ?_, ?_⟩ <;> rfl

/-- C5: whenever `Get` succeeds, on the first or the second attempt, an
empty URL list of the matched record fails with exactly the
no-downloadable-URLs error, and otherwise the returned location is the
record's first URL resolved against the connection's base URL (resolution
failures surfacing as URL-resolution errors and nothing else). -/
theorem resolve_success_resolves_first_url
    (repoURL username password chartName chartVersion certFile keyFile caFile : String)
    (fetch : Nat → FetchOutcome) (c0 : IndexCache) (now : Nat)
    (idx1 : IndexFile) (k : Nat) (cv : ChartVersion) (R : ResolveResult)
    (hR : R = FindChartInAuthRepoURL repoURL username password chartName chartVersion
        certFile keyFile caFile fetch c0 now)
    (h1 : chosenIndex repoURL fetch c0 now = some (idx1, k))
    (h2 : idx1.get chartName chartVersion = .ok cv ∨
      ∃ e1 idx2, idx1.get chartName chartVersion = .error e1 ∧ fetch k = .ok idx2 ∧
        idx2.get chartName chartVersion = .ok cv) :
    (cv.urls = [] → R.result = .error (.noDownloadableURLs
        s!"{chartErrMsg chartName chartVersion} has no downloadable URLs")) ∧
    (∀ u us a, cv.urls = u :: us → ResolveReferenceURL repoURL u = .ok a →
      R.result = .ok a) ∧
    (∀ u us e, cv.urls = u :: us → ResolveReferenceURL repoURL u = .error e →
      R.result = .error (.urlResolution s!"failed to make chart URL absolute: {e}")) := by
  obtain ⟨c', hEq⟩ := findChart_eq_resolveAfterIndex repoURL username password chartName
    chartVersion certFile keyFile caFile fetch c0 now idx1 k h1
  subst hR
  rw [hEq]
  have hres : (resolveAfterIndex repoURL chartName chartVersion fetch idx1 c' now k).result
      = finishResolve (chartErrMsg chartName chartVersion) repoURL cv := by
    rcases h2 with hok | ⟨e1, idx2, herr, hf, hok2⟩
    · simp only [resolveAfterIndex, hok]
    · simp only [resolveAfterIndex, herr, GetAndCacheIndexFile, hf, hok2]
  rw [hres]
  refine ⟨?_, ?_, ?_⟩
  · intro hurls
    simp only [finishResolve, hurls]
  · intro u us a hurls hra
    simp only [finishResolve, hurls, hra]
  · intro u us e hurls hre
    simp only [finishResolve, hurls, hre]

/-- C5 witness: a cache miss, a fresh catalog on the first fetch, and the
record's first URL joined onto the base URL. -/
theorem resolve_success_resolves_first_url_witness :
    (FindChartInAuthRepoURL exampleRepoURL "" "" "foo" "1.0.0" "" "" ""
        (fun _ => .ok freshIndex) ⟨[]⟩ 0).result
      = .ok "https://repo.example/charts/foo-1.0.0.tgz" :=
  (resolve_success_resolves_first_url exampleRepoURL "" "" "foo" "1.0.0" "" "" ""
      (fun _ => .ok freshIndex) ⟨[]⟩ 0 freshIndex 1 fooRecord _ rfl rfl
      (Or.inl rfl)).2.1
    "foo-1.0.0.tgz" [] "https://repo.example/charts/foo-1.0.0.tgz" rfl rfl

/-- C7: `generateIndex` adds a record for a scanned archive only when
`Has(name, version)` is false, never modifies a record already present — a
pinned pre-existing record survives byte-for-byte (even when the freshly
computed digest differs), and stays the only record of its (name, version)
— and the result is exactly the guarded-add fold finished by `SortEntries`. -/
theorem generateIndex_frame (loadChart : String → Option (String × String))
    (digestOf : String → Option String) (chartPaths : List String)
    (baseURL : String) (i0 out : IndexFile) (n v : String) (cv : ChartVersion)
    (hout : generateIndex loadChart digestOf chartPaths baseURL i0 = some out)
    (hpin : RecordPinned i0 n v cv) :
    findRecord out n v = some cv ∧
    (∀ ws, lookupPkg out.entries n = some ws → ∀ x ∈ ws, x.version = v → x = cv) ∧
    ∃ i1, generateIndexRaw loadChart digestOf chartPaths baseURL i0 = some i1 ∧
      out = i1.sortEntries := by
  unfold generateIndex at hout
  cases hraw : generateIndexRaw loadChart digestOf chartPaths baseURL i0 with
  | none => rw [hraw] at hout; cases hout
  | some i1 =>
    rw [hraw] at hout
    have hout' : out = i1.sortEntries := (Option.some.inj hout).symm
    have hp1 : RecordPinned i1 n v cv :=
      generateIndexRaw_pinned loadChart digestOf baseURL chartPaths i0 i1 hraw hpin
    have hp2 := recordPinned_sortEntries hp1
    subst hout'
    refine ⟨findRecord_of_pinned hp2, ?_, i1, rfl, rfl⟩
    intro ws hws x hx hxv
    obtain ⟨ws', hws', _, _, hu⟩ := hp2
    rw [hws'] at hws
    exact hu x ((Option.some.inj hws) ▸ hx) hxv

/-- C7 witness: a rescanned archive of `foo` at `1.0.0` whose fresh digest
differs from the recorded `sha256:abc`; the pre-existing record survives
unchanged and the output is the sorted catalog. -/
theorem generateIndex_frame_witness :
    generateIndex (fun _ => some ("foo", "1.0.0")) (fun _ => some "sha256:DIFFERENT")
        ["charts/foo-1.0.0.tgz"] "https://repo.example/charts" freshIndex
      = some freshIndex.sortEntries ∧
    findRecord freshIndex.sortEntries "foo" "1.0.0" = some fooRecord :=
  ⟨rfl,
   (generateIndex_frame (fun _ => some ("foo", "1.0.0")) (fun _ => some "sha256:DIFFERENT")
      ["charts/foo-1.0.0.tgz"] "https://repo.example/charts" freshIndex
      freshIndex.sortEntries "foo" "1.0.0" fooRecord rfl
      ⟨[fooRecord], rfl, List.mem_singleton.mpr rfl, rfl,
        fun x hx _ => List.mem_singleton.mp hx⟩).1⟩

/-- C4: with a non-empty merge target, the index-maintenance entry point
creates and uses an empty catalog when the target is missing, aborts when
loading the target fails, and otherwise merges the freshly generated local
index with the loaded one — generated records surviving exact-version
collisions byte-for-byte — sorts, and persists to `<dir>/index.yaml`. -/
theorem index_merge_contract (dir url mergeTo : String) (now : Nat)
    (gen i2 : IndexFile) (e : String) (hm : mergeTo ≠ "") :
    (index dir url mergeTo now (.ok gen) false (.ok i2)
      = .ok [(mergeTo, NewIndexFile now),
             (goPathJoin dir "index.yaml", (gen.merge (NewIndexFile now)).sortEntries)]) ∧
    gen.merge (NewIndexFile now) = gen ∧
    (index dir url mergeTo now (.ok gen) true (.error e) = .error s!"merge failed: {e}") ∧
    (index dir url mergeTo now (.ok gen) true (.ok i2)
      = .ok [(goPathJoin dir "index.yaml", (gen.merge i2).sortEntries)]) ∧
    (∀ n v cv, RecordPinned gen n v cv →
      findRecord ((gen.merge i2).sortEntries) n v = some cv) := by
  refine ⟨?_, rfl, ?_, ?_, ?_⟩
  · simp [index, hm]
  · simp [index, hm]
  · simp [index, hm]
  · intro n v cv hp
    exact findRecord_of_pinned (recordPinned_sortEntries (recordPinned_merge gen i2 hp))

/-- C4 witness: merging the generated catalog (`foo` at `1.0.0`, digest
`sha256:abc`) into a loaded target that carries a colliding `foo@1.0.0`
with another digest plus an extra `0.9.0`: the generated record survives
unchanged in the persisted, sorted index. -/
theorem index_merge_contract_witness :
    (index "/charts" "https://repo.example/charts" "old/index.yaml" 7 (.ok freshIndex)
        true (.ok ⟨"v1", 3, [("foo", [⟨"foo", "1.0.0", "sha256:OTHER", ["other.tgz"], 0⟩,
          ⟨"foo", "0.9.0", "sha256:old", ["foo-0.9.0.tgz"], 0⟩])]⟩)
      = .ok [("/charts/index.yaml",
          (freshIndex.merge ⟨"v1", 3, [("foo", [⟨"foo", "1.0.0", "sha256:OTHER", ["other.tgz"], 0⟩,
            ⟨"foo", "0.9.0", "sha256:old", ["foo-0.9.0.tgz"], 0⟩])]⟩).sortEntries)]) ∧
    findRecord ((freshIndex.merge ⟨"v1", 3, [("foo", [⟨"foo", "1.0.0", "sha256:OTHER", ["other.tgz"], 0⟩,
        ⟨"foo", "0.9.0", "sha256:old", ["foo-0.9.0.tgz"], 0⟩])]⟩).sortEntries) "foo" "1.0.0"
      = some fooRecord :=
  ⟨(index_merge_contract "/charts" "https://repo.example/charts" "old/index.yaml" 7
      freshIndex ⟨"v1", 3, [("foo", [⟨"foo", "1.0.0", "sha256:OTHER", ["other.tgz"], 0⟩,
        ⟨"foo", "0.9.0", "sha256:old", ["foo-0.9.0.tgz"], 0⟩])]⟩ "boom"
      (by decide)).2.2.2.1,
   (index_merge_contract "/charts" "https://repo.example/charts" "old/index.yaml" 7
      freshIndex ⟨"v1", 3, [("foo", [⟨"foo", "1.0.0", "sha256:OTHER", ["other.tgz"], 0⟩,
        ⟨"foo", "0.9.0", "sha256:old", ["foo-0.9.0.tgz"], 0⟩])]⟩ "boom"
      (by decide)).2.2.2.2 "foo" "1.0.0" fooRecord
      ⟨[fooRecord], rfl, List.mem_singleton.mpr rfl, rfl,
        fun x hx _ => List.mem_singleton.mp hx⟩⟩
